import Mathlib

/-!
Verification development for the `resonite-youtube-live-chat-relay` repository
(`src/main.py`). The Python program is shallowly embedded: the rolling chat
buffer (`ChatBuffer`), its wrapping and rendering routines, the websocket
fan-out, and the ingestion-loop recreate branches are translated to pure,
executable Lean definitions, and the specification's claims are proved or
refuted against them.
-/

namespace Relay

/-! ## ChatMessage (src/main.py, lines 76-89) -/

/-- Embeds the frozen dataclass `ChatMessage`: `msg_id`, `timestamp_ms`
(unix time in milliseconds, modelled as `Nat`), `author`, `text`. -/
structure ChatMessage where
  msg_id : String
  timestamp_ms : Nat
  author : String
  text : String
deriving DecidableEq

/-- Two-digit zero-padded rendering of a field of a time of day, as produced
by Python `%H`/`%M`/`%S` format codes. -/
def pad2 (n : Nat) : String :=
  if n < 10 then "0" ++ toString n else toString n

/-- The `HH:MM:SS` part of a header: `datetime.fromtimestamp(timestamp_ms/1000)`
formatted with `%H:%M:%S`.  Python uses the local timezone here; the embedding
fixes the timezone offset to 0 (UTC), which no claim depends on. -/
def hhmmss (timestamp_ms : Nat) : String :=
  let sod := timestamp_ms / 1000 % 86400
  pad2 (sod / 3600) ++ ":" ++ pad2 (sod % 3600 / 60) ++ ":" ++ pad2 (sod % 60)

/-- `ChatMessage.formatted_header` (line 83): `"{HH:MM:SS} - {author}: {text}"`. -/
def ChatMessage.formatted_header (m : ChatMessage) : String :=
  hhmmss m.timestamp_ms ++ " - " ++ m.author ++ ": " ++ m.text

/-- `ChatMessage.formatted_header_bold_author` (line 87):
`"{HH:MM:SS} - <b>{author}</b>: {text}"`. -/
def ChatMessage.formatted_header_bold_author (m : ChatMessage) : String :=
  hhmmss m.timestamp_ms ++ " - <b>" ++ m.author ++ "</b>: " ++ m.text

/-! ## ChatBuffer state (src/main.py, lines 94-123)

The Python object holds clamped configuration fields, a `deque` of messages
(oldest first; `popleft` removes the head, `append` adds at the tail) and a
`set` of resident ids.  The deque is a `List ChatMessage`, the id set a
`Finset String`.  The websocket client set is modelled separately (see the
fan-out section) because it is owned by the main loop, not by the buffer
algebra the buffer claims quantify over. -/

structure ChatBuffer where
  max_messages : Nat
  max_message_width : Nat
  max_lines : Nat
  sep_char : String
  sep_length : Nat
  buffer : List ChatMessage
  ids : Finset String
deriving DecidableEq

/-- `ChatBuffer.__init__` (lines 105-120).  The constructor arguments are
Python `int`s (possibly negative), hence `Int`; the stored fields are clamped:
`max(1, max_messages)`, `max(10, max_message_width)`, `max(0, max_lines)`,
`max(1, sep_length)`.  The buffer starts empty with an empty id set. -/
def ChatBuffer.init (max_messages max_message_width max_lines : Int)
    (sep_char : String) (sep_length : Int) : ChatBuffer where
  max_messages := (max 1 max_messages).toNat
  max_message_width := (max 10 max_message_width).toNat
  max_lines := (max 0 max_lines).toNat
  sep_char := sep_char
  sep_length := (max 1 sep_length).toNat
  buffer := []
  ids := ∅

/-- `ChatBuffer.add_message` (lines 144-156).  Returns the Python `bool`
result paired with the updated buffer state.  If the id is resident the call
returns `False` unchanged; otherwise, when `len(buffer) >= max_messages`,
the oldest message is popped and its id discarded, then the new message is
appended and its id inserted.  (`deque.popleft` on an empty deque would raise
`IndexError`; that branch is unreachable from a constructed buffer because
`max_messages ≥ 1`, and the embedding leaves the state unchanged there.) -/
def ChatBuffer.add_message (b : ChatBuffer) (msg_id : String)
    (timestamp_ms : Nat) (author text : String) : Bool × ChatBuffer :=
  if msg_id ∈ b.ids then
    (false, b)
  else
    let b1 :=
      if b.max_messages ≤ b.buffer.length then
        match b.buffer with
        | [] => b
        | oldest :: rest =>
            { b with buffer := rest, ids := b.ids.erase oldest.msg_id }
      else b
    let msg : ChatMessage := ⟨msg_id, timestamp_ms, author, text⟩
    (true, { b1 with buffer := b1.buffer ++ [msg], ids := insert msg_id b1.ids })

/-- One `add_message` call's argument tuple: `(msg_id, timestamp_ms, author, text)`. -/
abbrev AddCall := String × Nat × String × String

/-- Folds a sequence of `add_message` calls over a buffer, keeping only the
state (the `bool` results are discarded), mirroring the ingestion loop's
`for item in items: buffer.add_message(...)`. -/
def ChatBuffer.addAll (b : ChatBuffer) (calls : List AddCall) : ChatBuffer :=
  calls.foldl (fun s c => (s.add_message c.1 c.2.1 c.2.2.1 c.2.2.2).2) b

/-- The resident ids of a buffer state, in buffer order (oldest first). -/
def ChatBuffer.residentIds (b : ChatBuffer) : List String :=
  b.buffer.map ChatMessage.msg_id

/-- The state invariant of `ChatBuffer`: the buffer never exceeds the
(clamped) capacity, the id set is exactly the ids of the resident messages,
resident ids are pairwise distinct, and the capacity is at least 1. -/
def ChatBuffer.Inv (b : ChatBuffer) : Prop :=
  b.buffer.length ≤ b.max_messages ∧
  b.ids = b.residentIds.toFinset ∧
  b.residentIds.Nodup ∧
  1 ≤ b.max_messages

theorem ChatBuffer.inv_init (mm mw ml : Int) (sc : String) (sl : Int) :
    (ChatBuffer.init mm mw ml sc sl).Inv := by
  refine ⟨by simp [ChatBuffer.init], by simp [ChatBuffer.init, residentIds], by
    simp [ChatBuffer.init, residentIds], ?_⟩
  simp only [ChatBuffer.init]
  omega

theorem ChatBuffer.inv_add (b : ChatBuffer) (i : String) (ts : Nat)
    (au tx : String) (h : b.Inv) : (b.add_message i ts au tx).2.Inv := by
  obtain ⟨mm, mw, ml, sc, sl, buf, ids⟩ := b
  obtain ⟨hlen, hids, hnd, hmax⟩ := h
  simp only [ChatBuffer.Inv, residentIds] at *
  unfold ChatBuffer.add_message
  by_cases hin : i ∈ ids
  · simp only [hin, if_true]
    exact ⟨hlen, hids, hnd, hmax⟩
  · simp only [hin, if_false]
    by_cases hcap : mm ≤ buf.length
    · cases buf with
      | nil =>
          simp only [List.length_nil, Nat.le_zero] at hcap
          omega
      | cons oldest rest =>
          simp only [hcap, if_true]
          have hnd0 : oldest.msg_id ∉ rest.map ChatMessage.msg_id :=
            (List.nodup_cons.mp (by simpa using hnd)).1
          have hndr : (rest.map ChatMessage.msg_id).Nodup :=
            (List.nodup_cons.mp (by simpa using hnd)).2
          have hrest_ids : ids.erase oldest.msg_id =
              (rest.map ChatMessage.msg_id).toFinset := by
            rw [hids]
            simp only [List.map_cons, List.toFinset_cons]
            rw [Finset.erase_insert]
            simpa using hnd0
          have hi_not_rest : i ∉ rest.map ChatMessage.msg_id := by
            intro hmem
            apply hin
            rw [hids]
            simp [hmem]
          refine ⟨?_, ?_, ?_, hmax⟩
          · simp only [List.length_cons] at hlen
            simp only [List.length_append, List.length_cons, List.length_nil]
            omega
          · rw [hrest_ids]
            ext a
            simp [or_comm]
          · simp only [List.map_append, List.map_cons, List.map_nil]
            refine List.Nodup.append hndr (by simp) ?_
            intro a ha hb
            simp only [List.mem_cons, List.not_mem_nil, or_false] at hb
            subst hb
            exact hi_not_rest ha
    · simp only [hcap, if_false]
      have hi_not : i ∉ buf.map ChatMessage.msg_id := by
        intro hmem
        apply hin
        rw [hids]
        simpa using hmem
      refine ⟨?_, ?_, ?_, hmax⟩
      · simp only [List.length_append, List.length_cons, List.length_nil]
        omega
      · rw [hids]
        ext a
        simp [or_comm]
      · simp only [List.map_append, List.map_cons, List.map_nil]
        refine List.Nodup.append hnd (by simp) ?_
        intro a ha hb
        simp only [List.mem_cons, List.not_mem_nil, or_false] at hb
        subst hb
        exact hi_not ha

theorem ChatBuffer.inv_addAll (b : ChatBuffer) (calls : List AddCall)
    (h : b.Inv) : (b.addAll calls).Inv := by
  induction calls generalizing b with
  | nil => simpa [ChatBuffer.addAll] using h
  | cons c cs ih =>
      simp only [ChatBuffer.addAll, List.foldl_cons] at *
      exact ih _ (ChatBuffer.inv_add b c.1 c.2.1 c.2.2.1 c.2.2.2 h)

/-- `add_message` never changes the configuration fields. -/
theorem ChatBuffer.add_config (b : ChatBuffer) (i : String) (ts : Nat)
    (au tx : String) :
    (b.add_message i ts au tx).2.max_messages = b.max_messages ∧
    (b.add_message i ts au tx).2.max_message_width = b.max_message_width ∧
    (b.add_message i ts au tx).2.max_lines = b.max_lines ∧
    (b.add_message i ts au tx).2.sep_char = b.sep_char ∧
    (b.add_message i ts au tx).2.sep_length = b.sep_length := by
  obtain ⟨mm, mw, ml, sc, sl, buf, ids⟩ := b
  unfold ChatBuffer.add_message
  by_cases hin : i ∈ ids
  · simp [hin]
  · by_cases hcap : mm ≤ buf.length
    · cases buf with
      | nil => simp [hin, hcap]
      | cons oldest rest =>
          simp only [List.length_cons] at hcap
          simp [hin, hcap]
    · simp [hin, hcap]

theorem ChatBuffer.addAll_config (b : ChatBuffer) (calls : List AddCall) :
    (b.addAll calls).max_messages = b.max_messages ∧
    (b.addAll calls).max_message_width = b.max_message_width ∧
    (b.addAll calls).max_lines = b.max_lines ∧
    (b.addAll calls).sep_char = b.sep_char ∧
    (b.addAll calls).sep_length = b.sep_length := by
  induction calls generalizing b with
  | nil => simp [ChatBuffer.addAll]
  | cons c cs ih =>
      simp only [ChatBuffer.addAll, List.foldl_cons] at *
      have h1 := ChatBuffer.add_config b c.1 c.2.1 c.2.2.1 c.2.2.2
      have h2 := ih (b.add_message c.1 c.2.1 c.2.2.1 c.2.2.2).2
      exact ⟨h2.1.trans h1.1, h2.2.1.trans h1.2.1, h2.2.2.1.trans h1.2.2.1,
        h2.2.2.2.1.trans h1.2.2.2.1, h2.2.2.2.2.trans h1.2.2.2.2⟩

/-! ## Word wrapping (src/main.py, lines 158-167)

`ChatBuffer._wrap` calls `textwrap.wrap(s, width=max_message_width,
expand_tabs=False, replace_whitespace=False, drop_whitespace=False,
break_long_words=True, break_on_hyphens=False)`.  With these options Python
splits the text into maximal runs of whitespace / non-whitespace characters
(`re.split` on `(\s+)`, empties removed), then greedily packs the runs into
lines: a run is consumed whole while it fits, and when the next run alone
exceeds the full width it is hard-split, the first piece filling the current
line up to the width (`_handle_long_word` with `end = space_left`).  Nothing
is dropped or collapsed.  `textwrap` raises `ValueError` for `width <= 0`;
the buffer guarantees `width ≥ 10`, and the claim theorems assume `1 ≤ width`. -/

/-- ASCII whitespace as classified by Python's `\s` on `str` (space, tab,
newline, carriage return, vertical tab, form feed).  Python additionally
treats some further Unicode code points as whitespace; no claim or proof here
depends on the exact class, only on the induced run decomposition. -/
def pyIsSpace (c : Char) : Bool :=
  c == ' ' || c == '\t' || c == '\n' || c == '\r' || c == '\u000B' || c == '\u000C'

/-- `re.split(r'(\s+)', text)` with empty pieces removed: the maximal runs of
whitespace / non-whitespace characters of the text, in order. -/
def splitChunks : List Char → List (List Char)
  | [] => []
  | c :: rest =>
    match splitChunks rest with
    | [] => [[c]]
    | [] :: gs => [c] :: gs
    | (d :: g) :: gs =>
        if pyIsSpace c = pyIsSpace d then (c :: d :: g) :: gs
        else [c] :: (d :: g) :: gs

/-- The inner loop of `textwrap._wrap_chunks` building one line: consume
chunks while `cur_len + len(chunk) <= width`; on the first chunk that does
not fit, if that chunk alone exceeds the width, `_handle_long_word` hard
splits it at `space_left` (`1` when `width < 1`, else `width - cur_len`) and
pushes the remainder back; otherwise the line is finished.  Returns the
line's pieces (`cur_line`) and the remaining chunks. -/
def fillLine (width : Nat) (curLine : List (List Char)) (curLen : Nat) :
    List (List Char) → List (List Char) × List (List Char)
  | [] => (curLine, [])
  | c :: rest =>
    if curLen + c.length ≤ width then
      fillLine width (curLine ++ [c]) (curLen + c.length) rest
    else if width < c.length then
      let spaceLeft := if width < 1 then 1 else width - curLen
      (curLine ++ [c.take spaceLeft], c.drop spaceLeft :: rest)
    else (curLine, c :: rest)

/-- The outer loop of `textwrap._wrap_chunks`: repeatedly build a line from
the remaining chunks; a line is emitted only when `cur_line` is non-empty
(Python: `if cur_line: lines.append(...)`).  The loop terminates because each
iteration consumes input; the fuel argument is instantiated generously by
`pyWrap` and is shown sufficient in the proofs. -/
def wrapChunksGo (width : Nat) : Nat → List (List Char) → List (List Char)
  | 0, _ => []
  | _ + 1, [] => []
  | fuel + 1, c :: cs =>
      let p := fillLine width [] 0 (c :: cs)
      if p.1 = [] then wrapChunksGo width fuel p.2
      else p.1.flatten :: wrapChunksGo width fuel p.2

/-- `textwrap.wrap` with the option set used by `ChatBuffer._wrap`, on a
character list; produces the list of output lines (each a character list). -/
def pyWrap (width : Nat) (s : List Char) : List (List Char) :=
  let chunks := splitChunks s
  wrapChunksGo width (s.length + chunks.length + 1) chunks

/-- `ChatBuffer._wrap` (lines 158-167): wrap a string at the configured
`max_message_width`. -/
def ChatBuffer.wrapText (b : ChatBuffer) (s : String) : List String :=
  (pyWrap b.max_message_width s.data).map (fun cs => String.mk cs)

/-! ## Rendering (src/main.py, lines 169-182) -/

/-- The separator line `sep = self.sep_char * self.sep_length` (line 170).
`sep_char` is an unvalidated Python `str` — it may be empty or hold several
characters — and `*` is string repetition, so the separator line is
`sep_length` concatenated copies of `sep_char`. -/
def ChatBuffer.sepLine (b : ChatBuffer) : String :=
  String.mk ((List.replicate b.sep_length b.sep_char.data).flatten)

/-- The wrapped header lines of one message: `_wrap` applied to the bold or
plain header variant (line 175-176). -/
def ChatBuffer.messageLines (b : ChatBuffer) (bold : Bool) (m : ChatMessage) :
    List String :=
  b.wrapText (if bold then m.formatted_header_bold_author else m.formatted_header)

/-- The `out_lines` list of `render_buffer` before trimming (lines 171-177):
top border, each resident message's wrapped header lines with a separator
line before every message except the first, bottom border. -/
def ChatBuffer.renderLines (b : ChatBuffer) (bold : Bool) : List String :=
  [b.sepLine] ++
    (match b.buffer with
     | [] => []
     | m :: ms =>
         b.messageLines bold m ++
           (ms.map (fun x => b.sepLine :: b.messageLines bold x)).flatten) ++
    [b.sepLine]

/-- Python `"\n".join(lines)`. -/
def joinLines : List String → String
  | [] => ""
  | [l] => l
  | l :: ls => l ++ "\n" ++ joinLines ls

/-- `ChatBuffer.render_buffer` (lines 169-182): build `out_lines`, keep only
the last `max_lines` lines (`out_lines[-max_lines:]`) when `max_lines > 0`
and the list is longer than `max_lines`, then join with newlines. -/
def ChatBuffer.render_buffer (b : ChatBuffer) (bold : Bool) : String :=
  joinLines
    (if 0 < b.max_lines ∧ b.max_lines < (b.renderLines bold).length then
      (b.renderLines bold).drop ((b.renderLines bold).length - b.max_lines)
    else b.renderLines bold)

theorem ChatBuffer.sepLine_length (b : ChatBuffer) :
    b.sepLine.length = b.sep_length * b.sep_char.length := by
  show ((List.replicate b.sep_length b.sep_char.data).flatten).length =
    b.sep_length * b.sep_char.data.length
  induction b.sep_length with
  | zero => simp
  | succ n ih =>
      simp only [List.replicate_succ, List.flatten_cons, List.length_append,
        ih, Nat.succ_mul]
      omega

/-! ### Wrap structure: the claim-side break relation

`Consume w cs ps rest` says: one line consumed the pieces `ps` from the chunk
list `cs`, leaving `rest`, where each consumed piece is a whole chunk except
that the final piece may be the first part of a chunk that (as it stood)
exceeded the width `w`, whose remainder then heads `rest`.  `WrapRel w cs
lines` says the produced lines decompose the chunk list this way.  Thus a
run of non-whitespace characters is broken only when it exceeds the width,
and nothing is reordered, dropped or collapsed. -/

inductive Consume (w : Nat) : List (List Char) → List (List Char) → List (List Char) → Prop
  | stop (cs : List (List Char)) : Consume w cs [] cs
  | take (c : List Char) (cs ps rest : List (List Char)) :
      Consume w cs ps rest → Consume w (c :: cs) (c :: ps) rest
  | split (c a b : List Char) (cs : List (List Char)) :
      w < c.length → a ++ b = c → Consume w (c :: cs) [a] (b :: cs)

inductive WrapRel (w : Nat) : List (List Char) → List (List Char) → Prop
  | nil : WrapRel w [] []
  | line (cs ps rest : List (List Char)) (lines : List (List Char)) :
      Consume w cs ps rest → WrapRel w rest lines →
      WrapRel w cs (ps.flatten :: lines)

theorem consume_flatten_eq {w : Nat} {cs ps rest : List (List Char)}
    (h : Consume w cs ps rest) : ps.flatten ++ rest.flatten = cs.flatten := by
  induction h with
  | stop cs => simp
  | take c cs ps rest _ ih => simp [List.flatten_cons, List.append_assoc, ih]
  | split c a b cs hlen hab => simp [List.flatten_cons, ← hab, List.append_assoc]

theorem wrapRel_flatten_eq {w : Nat} {cs lines : List (List Char)}
    (h : WrapRel w cs lines) : lines.flatten = cs.flatten := by
  induction h with
  | nil => rfl
  | line cs ps rest lines hcon _ ih =>
      calc (ps.flatten :: lines).flatten = ps.flatten ++ lines.flatten := by
            simp [List.flatten_cons]
        _ = ps.flatten ++ rest.flatten := by rw [ih]
        _ = cs.flatten := consume_flatten_eq hcon

theorem splitChunks_flatten (l : List Char) : (splitChunks l).flatten = l := by
  induction l with
  | nil => rfl
  | cons c rest ih =>
      unfold splitChunks
      cases hs : splitChunks rest with
      | nil =>
          rw [hs] at ih
          simp at ih
          simp [ih]
      | cons g gs =>
          rw [hs] at ih
          cases g with
          | nil => simpa using ih
          | cons d g' =>
              by_cases hcls : pyIsSpace c = pyIsSpace d
              · simpa [hcls] using ih
              · simpa [hcls] using ih

theorem splitChunks_ne_nil (l : List Char) : ∀ g ∈ splitChunks l, g ≠ [] := by
  induction l with
  | nil => simp [splitChunks]
  | cons c rest ih =>
      unfold splitChunks
      cases hs : splitChunks rest with
      | nil => simp
      | cons g gs =>
          rw [hs] at ih
          cases g with
          | nil => simpa using fun x hx => ih x (by simp [hx])
          | cons d g' =>
              by_cases hcls : pyIsSpace c = pyIsSpace d
              · simp only [hcls, if_true]
                intro x hx
                rcases List.mem_cons.mp hx with h1 | h2
                · simp [h1]
                · exact ih x (by simp [h2])
              · simp only [hcls, if_false]
                intro x hx
                rcases List.mem_cons.mp hx with h1 | h2
                · simp [h1]
                · exact ih x h2

theorem fillLine_spec (w : Nat) (cs : List (List Char)) :
    ∀ (curLine : List (List Char)) (curLen : Nat),
    ∃ ps, (fillLine w curLine curLen cs).1 = curLine ++ ps ∧
      Consume w cs ps (fillLine w curLine curLen cs).2 := by
  induction cs with
  | nil =>
      intro curLine curLen
      exact ⟨[], by simp [fillLine], Consume.stop []⟩
  | cons c rest ih =>
      intro curLine curLen
      by_cases h1 : curLen + c.length ≤ w
      · obtain ⟨ps, hps, hcon⟩ := ih (curLine ++ [c]) (curLen + c.length)
        refine ⟨c :: ps, ?_, ?_⟩
        · simp only [fillLine, h1, if_true]
          rw [hps]
          simp
        · simp only [fillLine, h1, if_true]
          exact Consume.take c rest ps _ hcon
      · by_cases h2 : w < c.length
        · refine ⟨[c.take (if w < 1 then 1 else w - curLen)], ?_, ?_⟩
          · simp [fillLine, h1, h2]
          · have := Consume.split (w := w)
              c (c.take (if w < 1 then 1 else w - curLen))
              (c.drop (if w < 1 then 1 else w - curLen)) rest h2 (by simp)
            simpa [fillLine, h1, h2] using this
        · exact ⟨[], by simp [fillLine, h1, h2], by
            have := Consume.stop (w := w) (c :: rest)
            simpa [fillLine, h1, h2] using this⟩

theorem fillLine_len (w : Nat) (hw : 1 ≤ w) (cs : List (List Char)) :
    ∀ (curLine : List (List Char)) (curLen : Nat),
    curLen = curLine.flatten.length → curLen ≤ w →
    ((fillLine w curLine curLen cs).1).flatten.length ≤ w := by
  induction cs with
  | nil =>
      intro curLine curLen hlen hle
      simpa [fillLine, ← hlen] using hle
  | cons c rest ih =>
      intro curLine curLen hlen hle
      by_cases h1 : curLen + c.length ≤ w
      · simp only [fillLine, h1, if_true]
        exact ih (curLine ++ [c]) (curLen + c.length) (by simp [hlen]) h1
      · by_cases h2 : w < c.length
        · simp only [fillLine, h1, if_false, h2, if_true]
          have hw1 : ¬ w < 1 := by omega
          simp only [hw1, if_false]
          simp only [List.flatten_append, List.length_append,
            List.flatten_cons, List.flatten_nil, List.append_nil,
            List.length_take]
          omega
        · simpa [fillLine, h1, h2, ← hlen] using hle

theorem fillLine_rest_ne (w : Nat) (hw : 1 ≤ w) (cs : List (List Char)) :
    ∀ (curLine : List (List Char)) (curLen : Nat),
    (∀ c ∈ cs, c ≠ []) →
    ∀ r ∈ (fillLine w curLine curLen cs).2, r ≠ [] := by
  induction cs with
  | nil =>
      intro curLine curLen _ r hr
      simp [fillLine] at hr
  | cons c rest ih =>
      intro curLine curLen hne r hr
      by_cases h1 : curLen + c.length ≤ w
      · simp only [fillLine, h1, if_true] at hr
        exact ih (curLine ++ [c]) (curLen + c.length)
          (fun x hx => hne x (by simp [hx])) r hr
      · by_cases h2 : w < c.length
        · have hw1 : ¬ w < 1 := by omega
          simp only [fillLine, h1, if_false, h2, if_true, hw1] at hr
          rcases List.mem_cons.mp hr with hhd | htl
          · subst hhd
            intro habs
            have : c.length - (w - curLen) = 0 := by
              simpa [List.length_drop] using congrArg List.length habs
            omega
          · exact hne r (by simp [htl])
        · simp only [fillLine, h1, if_false, h2] at hr
          exact hne r hr

theorem fillLine_flatten_ne (w : Nat) (hw : 1 ≤ w) (c : List Char)
    (cs : List (List Char)) (hc : c ≠ []) :
    ((fillLine w [] 0 (c :: cs)).1).flatten ≠ [] := by
  by_cases h1 : 0 + c.length ≤ w
  · obtain ⟨ps, hps, _⟩ := fillLine_spec w cs ([] ++ [c]) (0 + c.length)
    simp only [fillLine, h1, if_true]
    rw [hps]
    simp [hc]
  · by_cases h2 : w < c.length
    · have hw1 : ¬ w < 1 := by omega
      simp only [fillLine, h1, if_false, h2, if_true, hw1]
      intro habs
      have : min w c.length = 0 := by
        simpa [List.length_take] using congrArg List.length habs
      omega
    · exfalso
      simp only [not_le] at h1
      simp only [not_lt] at h2
      omega

theorem wrapChunksGo_spec (w : Nat) (hw : 1 ≤ w) :
    ∀ (fuel : Nat) (cs : List (List Char)), (∀ c ∈ cs, c ≠ []) →
    cs.flatten.length < fuel →
    WrapRel w cs (wrapChunksGo w fuel cs) ∧
    ∀ l ∈ wrapChunksGo w fuel cs, l.length ≤ w := by
  intro fuel
  induction fuel with
  | zero =>
      intro cs _ hfuel
      omega
  | succ fuel ih =>
      intro cs hne hfuel
      cases cs with
      | nil => exact ⟨WrapRel.nil, by simp [wrapChunksGo]⟩
      | cons c rest =>
          obtain ⟨ps, hps, hcon⟩ := fillLine_spec w (c :: rest) [] 0
          have hfne : ((fillLine w [] 0 (c :: rest)).1).flatten ≠ [] :=
            fillLine_flatten_ne w hw c rest (hne c (by simp))
          have hp1 : (fillLine w [] 0 (c :: rest)).1 ≠ [] := by
            intro habs
            rw [habs] at hfne
            exact hfne rfl
          have hrest_ne : ∀ r ∈ (fillLine w [] 0 (c :: rest)).2, r ≠ [] :=
            fillLine_rest_ne w hw (c :: rest) [] 0 hne
          have hflat : ps.flatten ++ ((fillLine w [] 0 (c :: rest)).2).flatten =
              (c :: rest).flatten := consume_flatten_eq hcon
          have hpsne : ps.flatten ≠ [] := by
            rw [hps] at hfne
            simpa using hfne
          have hrlen : ((fillLine w [] 0 (c :: rest)).2).flatten.length < fuel := by
            have h1 : ps.flatten.length +
                ((fillLine w [] 0 (c :: rest)).2).flatten.length =
                (c :: rest).flatten.length := by
              rw [← List.length_append, hflat]
            have h2 : 1 ≤ ps.flatten.length := by
              cases hpe : ps.flatten with
              | nil => exact absurd hpe hpsne
              | cons x xs => simp [hpe]
            omega
          obtain ⟨hrel, hlen⟩ := ih (fillLine w [] 0 (c :: rest)).2 hrest_ne hrlen
          have hgo : wrapChunksGo w (fuel + 1) (c :: rest) =
              ((fillLine w [] 0 (c :: rest)).1).flatten ::
                wrapChunksGo w fuel (fillLine w [] 0 (c :: rest)).2 := by
            simp only [wrapChunksGo, hp1, if_false]
          constructor
          · rw [hgo, hps]
            simp only [List.nil_append]
            exact WrapRel.line (c :: rest) ps _ _ hcon hrel
          · rw [hgo]
            intro l hl
            rcases List.mem_cons.mp hl with h1 | h2
            · subst h1
              exact fillLine_len w hw (c :: rest) [] 0 rfl (by omega)
            · exact hlen l h2

/-! ## Websocket fan-out (src/main.py, lines 125-142 and 254-266)

Connections are opaque handles, modelled as `Nat` identifiers.  The client
set `self._clients` is modelled as a `List Nat` in the iteration order of
`list(self._clients)`; whether `ws.send` raises is an environment choice,
modelled by the predicate `fails` (the send to `ws` raises iff
`fails ws = true`). -/

/-- The send loop of `ChatBuffer.broadcast` (lines 135-140): try
`ws.send(text)` for each client in order, catching exceptions per send;
returns the successfully delivered frames and the `stale` list of clients
whose send raised. -/
def sendAll (fails : Nat → Bool) (text : String) :
    List Nat → List (Nat × String) × List Nat
  | [] => ([], [])
  | ws :: rest =>
      let p := sendAll fails text rest
      if fails ws then (p.1, ws :: p.2) else ((ws, text) :: p.1, p.2)

/-- `ChatBuffer.broadcast` (lines 131-142): return immediately on an empty
client set; otherwise send to every client of the snapshot
`list(self._clients)` and then discard each stale client from the set.
Per-send exceptions are caught (`except Exception`), so the caller never
sees an error.  Returns the client set after the call and the delivered
frames. -/
def wsBroadcast (clients : List Nat) (fails : Nat → Bool) (text : String) :
    List Nat × List (Nat × String) :=
  if clients = [] then (clients, [])
  else
    let p := sendAll fails text clients
    (clients.filter (fun ws => decide (ws ∉ p.2)), p.1)

/-- The connect-time behaviour of `ws_handler` (lines 254-266): register the
new connection (`set.add`), send it the private greeting frame
`Data::<url>`, then send the snapshot frame `ChatBuffer::<bold render>` via
`buffer.broadcast` — that is, to every open connection, not only to the new
one.  Returns the frames sent during the connect event (in order) and the
client set afterwards.  (The greeting send is assumed to succeed; if it
raised, the handler would abort before the snapshot broadcast.) -/
def ws_connect (clients : List Nat) (ws : Nat) (videoId : String)
    (b : ChatBuffer) (fails : Nat → Bool) : List (Nat × String) × List Nat :=
  let clients1 := if ws ∈ clients then clients else clients ++ [ws]
  let greeting : Nat × String :=
    (ws, "Data::https://www.youtube.com/live/" ++ videoId)
  let p := wsBroadcast clients1 fails ("ChatBuffer::" ++ b.render_buffer true)
  (greeting :: p.2, p.1)

theorem sendAll_eq (fails : Nat → Bool) (text : String) (cl : List Nat) :
    sendAll fails text cl =
      ((cl.filter (fun ws => !fails ws)).map (fun ws => (ws, text)),
       cl.filter fails) := by
  induction cl with
  | nil => rfl
  | cons ws rest ih =>
      by_cases h : fails ws
      · simp [sendAll, ih, List.filter_cons, h]
      · simp only [Bool.not_eq_true] at h
        simp [sendAll, ih, List.filter_cons, h]

/-! ## Ingestion-loop recreate branches (src/main.py, lines 272-283,
286-295, 309-320)

The `SourceSession` is the live pytchat handle (tracked by a generation
counter incremented by `_create_chat`) together with `last_item_ts`, a
monotonic-clock reading.  Each recreate branch of `main_async`'s loop is a
straight-line block; its effect on the session state and its emitted
sequence of actions are transcribed per trigger cause. -/

structure SourceSession where
  gen : Nat
  last_item_ts : Nat
deriving DecidableEq

inductive RecreateCause
  | not_alive
  | poll_error
  | stale
deriving DecidableEq

inductive ChatAction where
  | terminate_old (gen : Nat)
  | wait_retry
  | create_new (gen : Nat)
  | sleep_tick
deriving DecidableEq

/-- The recreate path for each trigger cause.  Every branch best-effort
terminates the current handle (`contextlib.suppress(Exception)`), waits
`retry_wait` via `interruptible_wait`, constructs a new handle
(`_create_chat`), and sleeps 0.1 s before continuing; the staleness branch
(line 318) additionally resets `last_item_ts = time.monotonic()`, while the
dead-liveness branch (lines 273-283) and the poll-failure branch (lines
286-295) leave `last_item_ts` unchanged.  `now` is the monotonic reading
after the wait, at the point where the stale branch samples the clock. -/
def recreateBranch (cause : RecreateCause) (s : SourceSession) (now : Nat) :
    SourceSession × List ChatAction :=
  match cause with
  | .not_alive =>
      (⟨s.gen + 1, s.last_item_ts⟩,
       [.terminate_old s.gen, .wait_retry, .create_new (s.gen + 1), .sleep_tick])
  | .poll_error =>
      (⟨s.gen + 1, s.last_item_ts⟩,
       [.terminate_old s.gen, .wait_retry, .create_new (s.gen + 1), .sleep_tick])
  | .stale =>
      (⟨s.gen + 1, now⟩,
       [.terminate_old s.gen, .wait_retry, .create_new (s.gen + 1), .sleep_tick])

/-! ## Claim theorems: buffer algebra -/

/-- C1: starting from a fresh `ChatBuffer`, after every sequence of
`add_message` calls the number of resident messages never exceeds the
capacity `max_messages`, and the membership id set equals exactly the set of
`msg_id`s of the messages currently in the buffer sequence. -/
theorem C1_buffer_invariant (mm mw ml : Int) (sc : String) (sl : Int)
    (calls : List AddCall) :
    ((ChatBuffer.init mm mw ml sc sl).addAll calls).buffer.length ≤
      ((ChatBuffer.init mm mw ml sc sl).addAll calls).max_messages ∧
    ((ChatBuffer.init mm mw ml sc sl).addAll calls).ids =
      (((ChatBuffer.init mm mw ml sc sl).addAll calls).buffer.map
        ChatMessage.msg_id).toFinset := by
  have h := ChatBuffer.inv_addAll _ calls (ChatBuffer.inv_init mm mw ml sc sl)
  exact ⟨h.1, h.2.1⟩

/-- C5: adding a message whose id is currently resident returns `false` and
leaves the buffer state entirely unchanged, whatever the other arguments.
(The hypothesis `hids` is the id-set/buffer coherence invariant, which holds
in every reachable state by C1.) -/
theorem C5_duplicate_rejected (b : ChatBuffer) (i : String) (ts : Nat)
    (au tx : String) (hres : i ∈ b.buffer.map ChatMessage.msg_id)
    (hids : b.ids = (b.buffer.map ChatMessage.msg_id).toFinset) :
    b.add_message i ts au tx = (false, b) := by
  have hin : i ∈ b.ids := by
    rw [hids]
    simpa using hres
  simp [ChatBuffer.add_message, hin]

theorem C5_witness :
    "x1" ∈ ((ChatBuffer.init 3 100 0 "-" 20).addAll
        [("x1", 1000, "alice", "hello")]).buffer.map ChatMessage.msg_id ∧
    ((ChatBuffer.init 3 100 0 "-" 20).addAll
        [("x1", 1000, "alice", "hello")]).add_message "x1" 2000 "alice" "hello" =
      (false, (ChatBuffer.init 3 100 0 "-" 20).addAll
        [("x1", 1000, "alice", "hello")]) := by
  refine ⟨by decide, ?_⟩
  exact C5_duplicate_rejected _ "x1" 2000 "alice" "hello" (by decide) (by decide)

/-- C4: when the buffer already holds `max_messages` messages and a
non-resident id arrives, `add_message` evicts exactly the earliest-accepted
resident message (the head of the FIFO sequence), removes its id from the
membership set, appends the new message at the tail, and returns `true`. -/
theorem C4_fifo_eviction (b : ChatBuffer) (i : String) (ts : Nat)
    (au tx : String) (oldest : ChatMessage) (rest : List ChatMessage)
    (hb : b.buffer = oldest :: rest)
    (hcap : b.buffer.length = b.max_messages)
    (hnew : i ∉ b.ids) :
    b.add_message i ts au tx = (true, { b with buffer := rest ++ [⟨i, ts, au, tx⟩], ids := insert i (b.ids.erase oldest.msg_id) }) := by
  obtain ⟨mm, mw, ml, sc, sl, buf, ids⟩ := b
  simp only at hb
  subst hb
  have hge : mm ≤ rest.length + 1 := by
    simpa using le_of_eq hcap.symm
  simp [ChatBuffer.add_message, hnew, hge]

theorem C4_witness :
    (((ChatBuffer.init 3 100 0 "-" 20).addAll
        [("A", 1, "a", "ta"), ("B", 2, "b", "tb"), ("C", 3, "c", "tc")]).add_message
          "D" 4 "d" "td").1 = true ∧
    ((((ChatBuffer.init 3 100 0 "-" 20).addAll
        [("A", 1, "a", "ta"), ("B", 2, "b", "tb"), ("C", 3, "c", "tc")]).add_message
          "D" 4 "d" "td").2.buffer.map ChatMessage.msg_id = ["B", "C", "D"]) ∧
    "A" ∉ (((ChatBuffer.init 3 100 0 "-" 20).addAll
        [("A", 1, "a", "ta"), ("B", 2, "b", "tb"), ("C", 3, "c", "tc")]).add_message
          "D" 4 "d" "td").2.ids := by
  have h := C4_fifo_eviction
    ((ChatBuffer.init 3 100 0 "-" 20).addAll
        [("A", 1, "a", "ta"), ("B", 2, "b", "tb"), ("C", 3, "c", "tc")])
    "D" 4 "d" "td" ⟨"A", 1, "a", "ta"⟩
    [⟨"B", 2, "b", "tb"⟩, ⟨"C", 3, "c", "tc"⟩]
    (by decide) (by decide) (by decide)
  rw [h]
  exact ⟨rfl, by decide, by decide⟩

/-- C9: the constructor clamps its configuration — effective capacity at
least 1, wrap width at least 10, separator length at least 1, `max_lines` at
least 0 — and no sequence of `add_message` calls ever changes these
effective values. -/
theorem C9_config_clamped (mm mw ml : Int) (sc : String) (sl : Int)
    (calls : List AddCall) :
    1 ≤ (ChatBuffer.init mm mw ml sc sl).max_messages ∧
    10 ≤ (ChatBuffer.init mm mw ml sc sl).max_message_width ∧
    1 ≤ (ChatBuffer.init mm mw ml sc sl).sep_length ∧
    (0 : Int) ≤ ((ChatBuffer.init mm mw ml sc sl).max_lines : Int) ∧
    ((ChatBuffer.init mm mw ml sc sl).addAll calls).max_messages =
      (ChatBuffer.init mm mw ml sc sl).max_messages ∧
    ((ChatBuffer.init mm mw ml sc sl).addAll calls).max_message_width =
      (ChatBuffer.init mm mw ml sc sl).max_message_width ∧
    ((ChatBuffer.init mm mw ml sc sl).addAll calls).max_lines =
      (ChatBuffer.init mm mw ml sc sl).max_lines ∧
    ((ChatBuffer.init mm mw ml sc sl).addAll calls).sep_length =
      (ChatBuffer.init mm mw ml sc sl).sep_length := by
  have hc := ChatBuffer.addAll_config (ChatBuffer.init mm mw ml sc sl) calls
  refine ⟨?_, ?_, ?_, ?_, hc.1, hc.2.1, hc.2.2.1, hc.2.2.2.2⟩
  · simp only [ChatBuffer.init]
    omega
  · simp only [ChatBuffer.init]
    omega
  · simp only [ChatBuffer.init]
    omega
  · positivity

/-- C6: for every input string and configured width (≥ 1; the constructor
guarantees ≥ 10), every line produced by `_wrap` has length at most the
width; the lines decompose the whitespace/non-whitespace run decomposition
of the input such that a run is broken only when it exceeds the width
(`WrapRel`); and concatenating the lines reproduces the input verbatim — no
whitespace is collapsed or dropped.  (With `break_long_words=True` even the
hard-split segments of over-width runs stay within the width, so the bound
holds without the exception the claim allows.) -/
theorem C6_wrap_correct (b : ChatBuffer) (s : String)
    (hw : 1 ≤ b.max_message_width) :
    (∀ line ∈ b.wrapText s, line.length ≤ b.max_message_width) ∧
    WrapRel b.max_message_width (splitChunks s.data)
      ((b.wrapText s).map String.data) ∧
    ((b.wrapText s).map String.data).flatten = s.data := by
  have hne := splitChunks_ne_nil s.data
  have hfuel : (splitChunks s.data).flatten.length <
      s.data.length + (splitChunks s.data).length + 1 := by
    rw [splitChunks_flatten]
    omega
  obtain ⟨hrel, hlen⟩ := wrapChunksGo_spec b.max_message_width hw
      (s.data.length + (splitChunks s.data).length + 1) (splitChunks s.data)
      hne hfuel
  have hmap : (b.wrapText s).map String.data =
      pyWrap b.max_message_width s.data := by
    unfold ChatBuffer.wrapText
    rw [List.map_map]
    have hcomp : (String.data ∘ fun cs => String.mk cs) = id := rfl
    rw [hcomp, List.map_id]
  refine ⟨?_, ?_, ?_⟩
  · intro line hline
    simp only [ChatBuffer.wrapText, List.mem_map] at hline
    obtain ⟨cs, hcs, hmk⟩ := hline
    have hb : cs.length ≤ b.max_message_width :=
      hlen cs (by simpa [pyWrap] using hcs)
    rw [← hmk]
    simpa [String.length] using hb
  · rw [hmap]
    simpa [pyWrap] using hrel
  · rw [hmap]
    calc (pyWrap b.max_message_width s.data).flatten
        = (splitChunks s.data).flatten := by
          simpa [pyWrap] using wrapRel_flatten_eq hrel
      _ = s.data := splitChunks_flatten s.data

theorem C6_witness :
    1 ≤ (ChatBuffer.init 20 10 0 "-" 20).max_message_width ∧
    ((∀ line ∈ (ChatBuffer.init 20 10 0 "-" 20).wrapText
          "Supercalifragilistic test",
        line.length ≤ (ChatBuffer.init 20 10 0 "-" 20).max_message_width) ∧
      WrapRel (ChatBuffer.init 20 10 0 "-" 20).max_message_width
        (splitChunks ("Supercalifragilistic test" : String).data)
        (((ChatBuffer.init 20 10 0 "-" 20).wrapText
            "Supercalifragilistic test").map String.data) ∧
      (((ChatBuffer.init 20 10 0 "-" 20).wrapText
          "Supercalifragilistic test").map String.data).flatten =
        ("Supercalifragilistic test" : String).data) :=
  ⟨by decide, C6_wrap_correct (ChatBuffer.init 20 10 0 "-" 20)
    "Supercalifragilistic test" (by decide)⟩

/-- Sanity check matching spec scenario 3: width 10 hard-splits the 20-char
token into 10-char chunks and keeps " test" (with its leading space, since
`drop_whitespace=False`) whole. -/
theorem wrapText_scenario3 :
    (ChatBuffer.init 20 10 0 "-" 20).wrapText "Supercalifragilistic test" =
      ["Supercalif", "ragilistic", " test"] := by
  decide

/-- C8: for every buffer state and bold flag, when `max_lines > 0` and the
fully rendered line list is longer than `max_lines`, `render_buffer` returns
exactly the last `max_lines` of those lines (`List.rtake`, i.e. trimming
from the top, possibly mid-message) joined by newlines, and that trimmed
list has exactly `max_lines` lines; when `max_lines = 0` or the line count
is within the limit, the output is the untrimmed line list joined by
newlines. -/
theorem C8_render_trim (b : ChatBuffer) (bold : Bool) :
    (0 < b.max_lines → b.max_lines < (b.renderLines bold).length →
      b.render_buffer bold =
        joinLines ((b.renderLines bold).rtake b.max_lines) ∧
      ((b.renderLines bold).rtake b.max_lines).length = b.max_lines) ∧
    (b.max_lines = 0 ∨ (b.renderLines bold).length ≤ b.max_lines →
      b.render_buffer bold = joinLines (b.renderLines bold)) := by
  constructor
  · intro h1 h2
    constructor
    · unfold ChatBuffer.render_buffer
      rw [if_pos ⟨h1, h2⟩]
      rfl
    · rw [List.rtake]
      rw [List.length_drop]
      omega
  · intro h
    unfold ChatBuffer.render_buffer
    rw [if_neg (by omega)]

theorem C8_witness :
    (((ChatBuffer.init 10 10 3 "-" 5).addAll
        [("A", 0, "al", "hello world")]).render_buffer false =
      joinLines ((((ChatBuffer.init 10 10 3 "-" 5).addAll
          [("A", 0, "al", "hello world")]).renderLines false).rtake
        (((ChatBuffer.init 10 10 3 "-" 5).addAll
          [("A", 0, "al", "hello world")]).max_lines))) ∧
    ((((ChatBuffer.init 10 10 3 "-" 5).addAll
        [("A", 0, "al", "hello world")]).renderLines false).rtake
      (((ChatBuffer.init 10 10 3 "-" 5).addAll
        [("A", 0, "al", "hello world")]).max_lines)).length =
      (((ChatBuffer.init 10 10 3 "-" 5).addAll
        [("A", 0, "al", "hello world")]).max_lines) :=
  (C8_render_trim ((ChatBuffer.init 10 10 3 "-" 5).addAll
      [("A", 0, "al", "hello world")]) false).1 (by decide) (by decide)

theorem flatten_replicate_nil (n : Nat) :
    (List.replicate n ([] : List Char)).flatten = [] := by
  induction n with
  | zero => rfl
  | succ n ih => simp [List.replicate_succ, ih]

/-- C10 counterexample: `sep_char` is an unvalidated Python `str` — the CLI
accepts `--sep-char=`, storing the empty string — so with an empty buffer,
`sep_char = ""` and `max_lines = 1`, the two empty border lines are trimmed
to one and `"\n".join` returns the empty string, refuting the claim's
"never the empty string" conjunct at a state satisfying all of the claim's
premises (empty buffer, clamped `sep_length ≥ 1`). -/
theorem C10_counterexample :
    (ChatBuffer.init 10 50 1 "" 20).buffer = [] ∧
    1 ≤ (ChatBuffer.init 10 50 1 "" 20).sep_length ∧
    (ChatBuffer.init 10 50 1 "" 20).render_buffer true = "" := by
  decide

/-- C10 (amended): rendering an empty buffer yields exactly the top and
bottom border separators joined by a newline when `max_lines` is 0 or at
least 2, and a single separator line when `max_lines = 1`.  The output is
non-empty whenever `sep_char` is a non-empty string (the default and every
documented separator is a single character); but since `sep_char` is
unvalidated, with `sep_char = ""` and `max_lines = 1` the output is exactly
the empty string. -/
theorem C10_empty_render (b : ChatBuffer) (bold : Bool)
    (hempty : b.buffer = []) (hsep : 1 ≤ b.sep_length) :
    ((b.max_lines = 0 ∨ 2 ≤ b.max_lines) →
      b.render_buffer bold = b.sepLine ++ "\n" ++ b.sepLine) ∧
    (b.max_lines = 1 → b.render_buffer bold = b.sepLine) ∧
    (b.sep_char ≠ "" → b.render_buffer bold ≠ "") ∧
    (b.sep_char = "" → b.max_lines = 1 → b.render_buffer bold = "") := by
  have hlines : b.renderLines bold = [b.sepLine, b.sepLine] := by
    simp [ChatBuffer.renderLines, hempty]
  have hA : (b.max_lines = 0 ∨ 2 ≤ b.max_lines) →
      b.render_buffer bold = b.sepLine ++ "\n" ++ b.sepLine := by
    intro hml
    unfold ChatBuffer.render_buffer
    rw [hlines]
    rw [if_neg (by simp only [List.length_cons, List.length_nil]; omega)]
    rfl
  have hB : b.max_lines = 1 → b.render_buffer bold = b.sepLine := by
    intro hml
    unfold ChatBuffer.render_buffer
    rw [hlines]
    rw [if_pos (by simp only [List.length_cons, List.length_nil]; omega)]
    rw [hml]
    rfl
  have hsl := b.sepLine_length
  have hpair_ne : b.sepLine ++ "\n" ++ b.sepLine ≠ "" := by
    intro habs
    have hh := congrArg String.length habs
    have hn : ("\n" : String).length = 1 := rfl
    have he : ("" : String).length = 0 := rfl
    rw [String.length_append, String.length_append, hn, he] at hh
    omega
  refine ⟨hA, hB, ?_, ?_⟩
  · intro hne
    have hchar : 1 ≤ b.sep_char.length := by
      rcases hsc : b.sep_char with ⟨data⟩
      cases data with
      | nil =>
          exact absurd (by rw [hsc]) hne
      | cons c cs =>
          show 1 ≤ (c :: cs).length
          simp
    have hsep_ne : b.sepLine ≠ "" := by
      intro habs
      have hh := congrArg String.length habs
      have he : ("" : String).length = 0 := rfl
      rw [hsl, he] at hh
      have hpos := Nat.mul_pos (show 0 < b.sep_length by omega)
        (show 0 < b.sep_char.length by omega)
      omega
    by_cases h0 : b.max_lines = 0
    · rw [hA (Or.inl h0)]
      exact hpair_ne
    · by_cases h1 : b.max_lines = 1
      · rw [hB h1]
        exact hsep_ne
      · rw [hA (Or.inr (by omega))]
        exact hpair_ne
  · intro hsc hml
    rw [hB hml]
    have hdata : b.sep_char.data = [] := by
      rw [hsc]
    unfold ChatBuffer.sepLine
    rw [hdata, flatten_replicate_nil]

/-- C7: `broadcast` attempts delivery to every connection open at the start
of the call — each open connection either receives the frame or is the one
whose send failed; a send failure removes only that connection from the open
set; delivery to all the other (non-failing) connections still occurs; the
remaining set is a subset of the original (nothing else is touched); and the
function is total, per-send exceptions being swallowed, so no error reaches
the caller. -/
theorem C7_broadcast_isolation (clients : List Nat) (fails : Nat → Bool)
    (text : String) :
    (∀ ws ∈ clients, fails ws = false →
      (ws, text) ∈ (wsBroadcast clients fails text).2) ∧
    (∀ ws ∈ clients,
      (ws ∈ (wsBroadcast clients fails text).1 ↔ fails ws = false)) ∧
    (∀ ws ∈ (wsBroadcast clients fails text).1, ws ∈ clients) ∧
    (∀ p ∈ (wsBroadcast clients fails text).2, p.1 ∈ clients ∧ p.2 = text) := by
  by_cases hcl : clients = []
  · subst hcl
    simp [wsBroadcast]
  · unfold wsBroadcast
    rw [if_neg hcl, sendAll_eq]
    refine ⟨?_, ?_, ?_, ?_⟩
    · intro ws hws hf
      simp only [List.mem_map, List.mem_filter]
      exact ⟨ws, ⟨hws, by simp [hf]⟩, rfl⟩
    · intro ws hws
      simp only [List.mem_filter, decide_eq_true_eq, List.mem_filter]
      constructor
      · rintro ⟨-, hnot⟩
        by_contra hf
        simp only [Bool.not_eq_false] at hf
        exact hnot ⟨hws, hf⟩
      · intro hf
        exact ⟨hws, by simp [hf]⟩
    · intro ws hws
      exact (List.mem_filter.mp hws).1
    · intro p hp
      simp only [List.mem_map, List.mem_filter] at hp
      obtain ⟨ws, ⟨hws, -⟩, rfl⟩ := hp
      exact ⟨hws, rfl⟩

/-- C2 counterexample: connection 7 is open before connection 9 connects;
the connect event nevertheless delivers the snapshot frame to connection 7,
because `ws_handler` sends the snapshot through `buffer.broadcast` rather
than privately to the new subscriber — refuting "none of those other
connections receives any frame as a result of the connect event". -/
theorem C2_counterexample :
    (7, "ChatBuffer::" ++ (ChatBuffer.init 10 50 0 "-" 5).render_buffer true) ∈
      (ws_connect [7] 9 "abc" (ChatBuffer.init 10 50 0 "-" 5)
        (fun _ => false)).1 := by
  decide

/-- C2 (amended): on connect, the greeting frame alone is private — it is
the first frame sent and goes to the new subscriber — but the snapshot frame
`ChatBuffer::<bold render>` is broadcast to every open connection: every
previously open connection whose send does not fail also receives it. -/
theorem C2_amended_snapshot_broadcast (clients : List Nat) (ws c : Nat)
    (videoId : String) (b : ChatBuffer) (fails : Nat → Bool)
    (hc : c ∈ clients) (hf : fails c = false) :
    (c, "ChatBuffer::" ++ b.render_buffer true) ∈
      (ws_connect clients ws videoId b fails).1 ∧
    (ws_connect clients ws videoId b fails).1.head? =
      some (ws, "Data::https://www.youtube.com/live/" ++ videoId) := by
  constructor
  · have hc1 : c ∈ (if ws ∈ clients then clients else clients ++ [ws]) := by
      by_cases hws : ws ∈ clients
      · simpa [hws] using hc
      · simp only [hws, if_false, List.mem_append]
        exact Or.inl hc
    have hdel := (C7_broadcast_isolation
        (if ws ∈ clients then clients else clients ++ [ws]) fails
        ("ChatBuffer::" ++ b.render_buffer true)).1 c hc1 hf
    exact List.mem_cons_of_mem _ hdel
  · rfl

theorem C2_amended_witness :
    (1 ∈ [1] ∧ (fun _ : Nat => false) 1 = false) ∧
    (1, "ChatBuffer::" ++ (ChatBuffer.init 10 50 0 "-" 5).render_buffer true) ∈
      (ws_connect [1] 2 "vid" (ChatBuffer.init 10 50 0 "-" 5)
        (fun _ => false)).1 ∧
    (ws_connect [1] 2 "vid" (ChatBuffer.init 10 50 0 "-" 5)
        (fun _ => false)).1.head? =
      some (2, "Data::https://www.youtube.com/live/" ++ "vid") :=
  ⟨⟨by decide, rfl⟩,
    C2_amended_snapshot_broadcast [1] 2 1 "vid" (ChatBuffer.init 10 50 0 "-" 5)
      (fun _ => false) (by decide) rfl⟩

/-- C3 counterexample: the dead-liveness recreate branch does not reset
`last_item_ts` to the current monotonic time: starting from
`last_item_ts = 0` with the clock at 7 after the wait, the resulting
session keeps `last_item_ts = 0`, and differs from the stale branch's
result — refuting both the "resets last_item_ts" and the "no difference in
the resulting state" parts of the claim. -/
theorem C3_counterexample :
    (recreateBranch RecreateCause.not_alive ⟨0, 0⟩ 7).1.last_item_ts ≠ 7 ∧
    (recreateBranch RecreateCause.not_alive ⟨0, 0⟩ 7).1 ≠
      (recreateBranch RecreateCause.stale ⟨0, 0⟩ 7).1 := by
  decide

/-- C3 (amended): every recreate branch uniformly terminates the old source
handle, waits `retry_wait`, constructs a new handle and sleeps — the emitted
action trace is identical for all three trigger causes, and each branch
replaces the handle (generation increments) — but only the staleness branch
resets `last_item_ts` to the current monotonic time; the dead-liveness and
poll-failure branches return to ACTIVE with `last_item_ts` unchanged. -/
theorem C3_amended_recreate (s : SourceSession) (now : Nat) :
    (∀ c1 c2 : RecreateCause,
      (recreateBranch c1 s now).2 = (recreateBranch c2 s now).2) ∧
    (∀ c : RecreateCause, (recreateBranch c s now).1.gen = s.gen + 1) ∧
    (recreateBranch RecreateCause.stale s now).1.last_item_ts = now ∧
    (recreateBranch RecreateCause.not_alive s now).1.last_item_ts =
      s.last_item_ts ∧
    (recreateBranch RecreateCause.poll_error s now).1.last_item_ts =
      s.last_item_ts := by
  refine ⟨?_, ?_, rfl, rfl, rfl⟩
  · intro c1 c2
    cases c1 <;> cases c2 <;> rfl
  · intro c
    cases c <;> rfl

theorem C10_witness :
    ((ChatBuffer.init 10 50 0 "─" 20).buffer = [] ∧
     1 ≤ (ChatBuffer.init 10 50 0 "─" 20).sep_length) ∧
    (((ChatBuffer.init 10 50 0 "─" 20).max_lines = 0 ∨
        2 ≤ (ChatBuffer.init 10 50 0 "─" 20).max_lines) →
      (ChatBuffer.init 10 50 0 "─" 20).render_buffer true =
        (ChatBuffer.init 10 50 0 "─" 20).sepLine ++ "\n" ++
          (ChatBuffer.init 10 50 0 "─" 20).sepLine) ∧
    ((ChatBuffer.init 10 50 0 "─" 20).max_lines = 1 →
      (ChatBuffer.init 10 50 0 "─" 20).render_buffer true =
        (ChatBuffer.init 10 50 0 "─" 20).sepLine) ∧
    ((ChatBuffer.init 10 50 0 "─" 20).sep_char ≠ "" →
      (ChatBuffer.init 10 50 0 "─" 20).render_buffer true ≠ "") ∧
    ((ChatBuffer.init 10 50 0 "─" 20).sep_char = "" →
      (ChatBuffer.init 10 50 0 "─" 20).max_lines = 1 →
      (ChatBuffer.init 10 50 0 "─" 20).render_buffer true = "") :=
  ⟨⟨by decide, by decide⟩,
    C10_empty_render (ChatBuffer.init 10 50 0 "─" 20) true (by decide) (by decide)⟩

end Relay
